import Mathlib

/-!
Verification development for the `dribbble-client` library (`src/lib/index.ts`).

The library's core logic is embedded here as executable Lean definitions:

* the casing transform pipeline `snakePipe` / `camelPipe`, built on the
  lodash `snakeCase` / `camelCase` / `pickBy` helpers the source imports
  (word splitting is modelled for ASCII identifier input: letters, digits
  and separator characters, without lodash's apostrophe-removal and
  ordinal-suffix special cases which the library never exercises);
* the client state (`Dribbble` class fields), the authorization guard
  `enforceAuthorized`, token installation `setAccessToken`, the OAuth URL
  builder `getAuthorizationUrl` and the token exchange;
* every endpoint method, each producing the HTTP request it would hand to
  the axios transport.  Axios semantics are modelled faithfully: the
  `transformRequest` chain `[snakePipe, stringify]` registered at
  construction applies to request *bodies* (`data`), while `params` of
  GET requests are serialized as given, and the instance's default
  headers are attached to every request.

JavaScript objects are modelled as ordered association lists
(`List (String × JVal)`): key order is insertion order and re-assigning
an existing key updates it in place, exactly as in JS.
-/

/-! ### Character classes and case mapping (ASCII) -/

/-- ASCII lowercase letter test, by code point. -/
def isLowC (c : Char) : Bool := 97 ≤ c.toNat && c.toNat ≤ 122

/-- ASCII uppercase letter test, by code point. -/
def isUpC (c : Char) : Bool := 65 ≤ c.toNat && c.toNat ≤ 90

/-- ASCII digit test, by code point. -/
def isDigC (c : Char) : Bool := 48 ≤ c.toNat && c.toNat ≤ 57

/-- Lowercase an ASCII character (identity on everything else),
as JavaScript `String.prototype.toLowerCase` does on ASCII. -/
def toLowC (c : Char) : Char :=
  if isUpC c then Char.ofNat (c.toNat + 32) else c

/-- Uppercase an ASCII character (identity on everything else),
as JavaScript `String.prototype.toUpperCase` does on ASCII. -/
def toUpC (c : Char) : Char :=
  if isLowC c then Char.ofNat (c.toNat - 32) else c

/-! ### Word splitting

A structural scanner equivalent to the lodash `words` splitter on ASCII
identifier input: maximal runs of digits and of lowercase letters are
words; a run of uppercase letters forms an acronym word, except that when
it is immediately followed by a lowercase letter its last character
starts the following capitalized word (`"ABCDef"` splits as
`["ABC", "Def"]`, `"perPage"` as `["per", "Page"]`).  Any other character
separates words. -/

/-- Scanner mode: which kind of character run is currently open. -/
inductive Mode where
  | idle : Mode
  | dig : Mode
  | low : Mode
  | up : Mode
deriving DecidableEq, Repr

/-- Close the pending run, if any, into a final word. -/
def flushW (acc : List Char) : List (List Char) :=
  if acc.isEmpty then [] else [acc]

/-- One-pass word scanner; `acc` is the currently open run (in order). -/
def wordsGo : Mode → List Char → List Char → List (List Char)
  | _, acc, [] => flushW acc
  | m, acc, c :: cs =>
    match m with
    | .idle =>
      if isDigC c then wordsGo .dig [c] cs
      else if isLowC c then wordsGo .low [c] cs
      else if isUpC c then wordsGo .up [c] cs
      else wordsGo .idle [] cs
    | .dig =>
      if isDigC c then wordsGo .dig (acc ++ [c]) cs
      else if isLowC c then acc :: wordsGo .low [c] cs
      else if isUpC c then acc :: wordsGo .up [c] cs
      else acc :: wordsGo .idle [] cs
    | .low =>
      if isLowC c then wordsGo .low (acc ++ [c]) cs
      else if isDigC c then acc :: wordsGo .dig [c] cs
      else if isUpC c then acc :: wordsGo .up [c] cs
      else acc :: wordsGo .idle [] cs
    | .up =>
      if isUpC c then wordsGo .up (acc ++ [c]) cs
      else if isLowC c then
        if acc.length ≤ 1 then wordsGo .low (acc ++ [c]) cs
        else acc.dropLast :: wordsGo .low [acc.getLastD c, c] cs
      else if isDigC c then acc :: wordsGo .dig [c] cs
      else acc :: wordsGo .idle [] cs

/-- Split a character list into its case/digit words. -/
def wordsOf (l : List Char) : List (List Char) := wordsGo .idle [] l

/-! ### Well-formedness of the words produced by the scanner -/

/-- A word the splitter can emit: nonempty, and a digit run, a lowercase
run, an uppercase run, or an uppercase letter followed by lowercase. -/
def goodW (w : List Char) : Prop :=
  w ≠ [] ∧ ((∀ c ∈ w, isDigC c = true) ∨ (∀ c ∈ w, isLowC c = true) ∨
    (∀ c ∈ w, isUpC c = true) ∨
    ∃ u t, w = u :: t ∧ isUpC u = true ∧ ∀ c ∈ t, isLowC c = true)

/-- Scanner invariant: shape of the open run in each mode. -/
def accInv : Mode → List Char → Prop
  | .idle, acc => acc = []
  | .dig, acc => acc ≠ [] ∧ ∀ c ∈ acc, isDigC c = true
  | .low, acc => acc ≠ [] ∧ ((∀ c ∈ acc, isLowC c = true) ∨
      ∃ u t, acc = u :: t ∧ isUpC u = true ∧ ∀ c ∈ t, isLowC c = true)
  | .up, acc => acc ≠ [] ∧ ∀ c ∈ acc, isUpC c = true

/-! ### Joining words and re-scanning a snake_case join -/

/-- Join words with a separator character, as the lodash compounder does
(separator between consecutive words, none at the ends). -/
def joinWords (sep : Char) : List (List Char) → List Char
  | [] => []
  | [w] => w
  | w :: ws => w ++ sep :: joinWords sep ws

/-! ### The lodash case converters -/

/-- Lowercase a word (`word.toLowerCase()` on ASCII). -/
def lowerW (w : List Char) : List Char := w.map toLowC

/-- lodash `snakeCase` on the word level: lowercase every word and join
with underscores. -/
def snakeWords (ws : List (List Char)) : List Char :=
  joinWords '_' (ws.map lowerW)

/-- lodash `snakeCase`, character-list level. -/
def snakeCaseL (l : List Char) : List Char := snakeWords (wordsOf l)

/-- lodash `snakeCase` as imported by the source. -/
def snakeCase (s : String) : String := ⟨snakeCaseL s.data⟩

/-- lodash `capitalize` of a word: lowercase it, then uppercase the first
character. -/
def capW (w : List Char) : List Char :=
  match lowerW w with
  | [] => []
  | c :: cs => toUpC c :: cs

/-- lodash `camelCase` on the word level: first word lowercased, each
later word capitalized. -/
def camelWords : List (List Char) → List Char
  | [] => []
  | w :: ws => lowerW w ++ (ws.map capW).flatten

/-- lodash `camelCase`, character-list level. -/
def camelCaseL (l : List Char) : List Char := camelWords (wordsOf l)

/-- lodash `camelCase` as imported by the source. -/
def camelCase (s : String) : String := ⟨camelCaseL s.data⟩

/-! ### JavaScript values and objects -/

/-- A JavaScript value as the transforms see it. -/
inductive JVal where
  | str : String → JVal
  | num : Int → JVal
  | bool : Bool → JVal
  | null : JVal
  | undefined : JVal
deriving DecidableEq, Repr

/-- JavaScript truthiness (the lodash `pickBy` default predicate):
empty string, `0`, `false`, `null` and `undefined` are falsy. -/
def truthy : JVal → Bool
  | .str s => !(s == "")
  | .num n => !(n == 0)
  | .bool b => b
  | .null => false
  | .undefined => false

/-- A JavaScript object: ordered keys, unique in any real object. -/
abbrev JObj := List (String × JVal)

/-- JavaScript property assignment `ret[k] = v`: updates an existing key
in place, otherwise appends the new key at the end. -/
def objInsert {α : Type} (k : String) (v : α) :
    List (String × α) → List (String × α)
  | [] => [(k, v)]
  | (k2, v2) :: t => if k2 = k then (k, v) :: t else (k2, v2) :: objInsert k v t

/-- lodash `pickBy(data)`: keep the entries with truthy values. -/
def pickBy (data : JObj) : JObj := data.filter (fun p => truthy p.2)

/-- `Object.keys(data).forEach(key => ret[f(key)] = data[key])` starting
from an empty `ret`. -/
def pipeWith (f : String → String) (data : JObj) : JObj :=
  data.foldl (fun ret p => objInsert (f p.1) p.2 ret) []

/-- `snakePipe` from the source: drop falsy values, snake_case the keys. -/
def snakePipe (data : JObj) : JObj := pipeWith snakeCase (pickBy data)

/-- `camelPipe` from the source: camelCase every key, keep every value. -/
def camelPipe (data : JObj) : JObj := pipeWith camelCase data

/-! ### Query-string encoding (Node `querystring`) -/

/-- Upper-case hexadecimal digit. -/
def hexDigit (n : Nat) : Char :=
  if n < 10 then Char.ofNat (48 + n) else Char.ofNat (55 + n)

/-- Characters `encodeURIComponent` (and Node `querystring.escape`) leave
unescaped: ASCII alphanumerics and `- _ . ! ~ * ' ( )`. -/
def isUnreservedC (c : Char) : Bool :=
  isLowC c || isUpC c || isDigC c ||
    c ∈ ['-', '_', '.', '!', '~', '*', '(', ')', Char.ofNat 39]

/-- UTF-8 bytes of a code point. -/
def utf8Bytes (n : Nat) : List Nat :=
  if n < 128 then [n]
  else if n < 2048 then [192 + n / 64, 128 + n % 64]
  else if n < 65536 then [224 + n / 4096, 128 + (n / 64) % 64, 128 + n % 64]
  else [240 + n / 262144, 128 + (n / 4096) % 64, 128 + (n / 64) % 64, 128 + n % 64]

/-- Percent-encode one character. -/
def escChar (c : Char) : List Char :=
  if isUnreservedC c then [c]
  else (utf8Bytes c.toNat).foldr
    (fun b acc => '%' :: hexDigit (b / 16) :: hexDigit (b % 16) :: acc) []

/-- `querystring.escape` / `encodeURIComponent`. -/
def escapeQS (s : String) : String :=
  ⟨s.data.foldr (fun c acc => escChar c ++ acc) []⟩

/-- How `querystring.stringify` renders a primitive value. -/
def jvalText : JVal → String
  | .str s => s
  | .num n => toString n
  | .bool b => if b then "true" else "false"
  | .null => ""
  | .undefined => ""

/-- `querystring.stringify`: `k=v` pairs joined by `&`, both sides
percent-encoded. -/
def stringifyQS (o : JObj) : String :=
  String.intercalate "&" (o.map (fun p => escapeQS p.1 ++ "=" ++ escapeQS (jvalText p.2)))

/-! ### The Dribbble client (`src/lib/index.ts`) -/

/-- Fixed API base URL (`API_ENDPOINT` in the source). -/
def apiEndpoint : String := "https://api.dribbble.com/v2"

/-- Fixed OAuth base URL (`OAUTH_ENDPOINT` in the source). -/
def oauthEndpoint : String := "https://dribbble.com/oauth"

/-- Constructor configuration (`Client` interface in the source). -/
structure Client where
  clientId : String
  clientSecret : String
  scope : String
deriving DecidableEq, Repr

/-- The `EnumScope` string enum, with the source's `"pulic"` literal. -/
inductive EnumScope where
  | PUBLIC : EnumScope
  | UPLOAD : EnumScope
deriving DecidableEq, Repr

/-- The string value of each `EnumScope` member. -/
def EnumScope.value : EnumScope → String
  | .PUBLIC => "pulic"
  | .UPLOAD => "upload"

/-- Pagination query object (`Pager` interface in the source). -/
structure Pager where
  page : Int
  perPage : Int
deriving DecidableEq, Repr

/-- The typed error thrown by the client (`DribbbleError` in the source). -/
structure DribbbleError where
  message : String
  code : Nat
deriving DecidableEq, Repr

/-- The error `enforceAuthorized` throws when no token is present. -/
def unauthorizedError : DribbbleError :=
  { message := "Need authorization.", code := 403 }

/-- Mutable instance state of the `Dribbble` class: credentials, the
stored access token, and the axios instance's default common headers. -/
structure DState where
  accessToken : String
  clientId : String
  clientSecret : String
  scope : String
  defaultHeaders : List (String × String)
deriving DecidableEq, Repr

/-- `new Dribbble(clientConfig)`: store the credentials, start with an
empty access token and no default common headers. -/
def mkClient (cfg : Client) : DState :=
  { accessToken := ""
    clientId := cfg.clientId
    clientSecret := cfg.clientSecret
    scope := cfg.scope
    defaultHeaders := [] }

/-- An HTTP request as handed to the axios transport: the `params` of a
GET/DELETE are serialized as given, while a POST body has already been
run through the instance's `transformRequest` chain
`[snakePipe, stringify]`. -/
structure Request where
  method : String
  url : String
  headers : List (String × String)
  params : JObj
  body : Option String
deriving DecidableEq, Repr

/-- `this.client.get(url, { params })`. -/
def clientGet (st : DState) (url : String) (params : JObj) : Request :=
  { method := "GET", url := url, headers := st.defaultHeaders
    params := params, body := none }

/-- `this.client.post(url, data)`: the body goes through `snakePipe` and
then `querystring.stringify`. -/
def clientPost (st : DState) (url : String) (data : JObj) : Request :=
  { method := "POST", url := url
    headers := st.defaultHeaders ++ [("Content-Type", "application/x-www-form-urlencoded")]
    params := [], body := some (stringifyQS (snakePipe data)) }

/-- `this.client.delete(url)`. -/
def clientDelete (st : DState) (url : String) : Request :=
  { method := "DELETE", url := url, headers := st.defaultHeaders
    params := [], body := none }

/-- `enforceAuthorized()`: throw the 403 error when the stored token is
falsy (the empty string). -/
def enforceAuthorized (st : DState) : Except DribbbleError Unit :=
  if st.accessToken = "" then .error unauthorizedError else .ok ()

/-- `setAccessToken(accessToken)`: store the token and install the
default `Authorization: Bearer <token>` header. -/
def setAccessToken (accessToken : String) (st : DState) : DState :=
  { st with accessToken := accessToken
            defaultHeaders := objInsert "Authorization" ("Bearer " ++ accessToken)
              st.defaultHeaders }

/-- `undefined`-able string argument as the value the transforms see. -/
def optVal : Option String → JVal
  | some s => .str s
  | none => .undefined

/-- The query object `getAuthorizationUrl` builds via `snakePipe`. -/
def authQuery (st : DState) (scopeArg redirectUri stateArg : Option String) : JObj :=
  snakePipe
    [("clientId", .str st.clientId),
     ("scope", .str (match scopeArg with
       | some s => if s = "" then st.scope else s
       | none => st.scope)),
     ("redirectUri", optVal redirectUri),
     ("state", optVal stateArg)]

/-- `getAuthorizationUrl(scope?, redirectUri?, state?)`: `url.format` of
the OAuth host with pathname `/oauth/authorize` and the `snakePipe`d
query (no `?` when the query object is empty).  Pure; no request. -/
def getAuthorizationUrl (st : DState) (scopeArg redirectUri stateArg : Option String) :
    String :=
  let q := authQuery st scopeArg redirectUri stateArg
  "https://dribbble.com/oauth/authorize" ++
    (if q.isEmpty then "" else "?" ++ stringifyQS q)

/-- `exchangeAuthorizationCode(code, redirectUri?)`: POST to
`${OAUTH_ENDPOINT}/token`; the instance state is untouched. -/
def exchangeAuthorizationCode (st : DState) (code : String)
    (redirectUri : Option String) : Except DribbbleError (Request × DState) :=
  .ok (clientPost st (oauthEndpoint ++ "/token")
    [("clientId", .str st.clientId),
     ("clientSecret", .str st.clientSecret),
     ("code", .str code),
     ("redirectUri", optVal redirectUri)], st)

/-- The `params` object axios serializes for a `Pager` argument. -/
def pagerParams (p : Pager) : JObj :=
  [("page", .num p.page), ("perPage", .num p.perPage)]

/-- `createAttachment(id, file)` (protected). -/
def createAttachment (st : DState) (id : String) (file : JVal) :
    Except DribbbleError (Request × DState) := do
  enforceAuthorized st
  pure (clientPost st ("/shots/" ++ id ++ "/attachments") [("file", file)], st)

/-- `deleteAttachment(id, attachmentId)` (protected). -/
def deleteAttachment (st : DState) (id attachmentId : String) :
    Except DribbbleError (Request × DState) := do
  enforceAuthorized st
  pure (clientDelete st ("/shots/" ++ id ++ "/attachments/" ++ attachmentId), st)

/-- `getLikes(params)` (protected). -/
def getLikes (st : DState) (params : Pager) :
    Except DribbbleError (Request × DState) := do
  enforceAuthorized st
  pure (clientGet st "/user/likes" (pagerParams params), st)

/-- `hasLiked(id)` (protected). -/
def hasLiked (st : DState) (id : String) :
    Except DribbbleError (Request × DState) := do
  enforceAuthorized st
  pure (clientGet st ("/shots/" ++ id ++ "/like") [], st)

/-- `likeShot(id)` (protected). -/
def likeShot (st : DState) (id : String) :
    Except DribbbleError (Request × DState) := do
  enforceAuthorized st
  pure (clientPost st ("/shots/" ++ id ++ "/like") [], st)

/-- `unlikeShot(id)`: no guard in the source. -/
def unlikeShot (st : DState) (id : String) :
    Except DribbbleError (Request × DState) :=
  .ok (clientDelete st ("/shots/" ++ id ++ "/like"), st)

/-- `getUserProject(params)` (protected). -/
def getUserProject (st : DState) (params : Pager) :
    Except DribbbleError (Request × DState) := do
  enforceAuthorized st
  pure (clientGet st "/user/project" (pagerParams params), st)

/-- `createProject(name, description)` (protected). -/
def createProject (st : DState) (name description : String) :
    Except DribbbleError (Request × DState) := do
  enforceAuthorized st
  pure (clientPost st "/projects" [("name", .str name), ("description", .str description)], st)

/-- `updateProject(id, data)` (protected). -/
def updateProject (st : DState) (id : String) (data : JObj) :
    Except DribbbleError (Request × DState) := do
  enforceAuthorized st
  pure (clientPost st ("/projects/" ++ id) data, st)

/-- `deleteProject(id)` (protected). -/
def deleteProject (st : DState) (id : String) :
    Except DribbbleError (Request × DState) := do
  enforceAuthorized st
  pure (clientDelete st ("/projects/" ++ id), st)

/-- `getUserShots(params)` (protected). -/
def getUserShots (st : DState) (params : Pager) :
    Except DribbbleError (Request × DState) := do
  enforceAuthorized st
  pure (clientGet st "/user/shots" (pagerParams params), st)

/-- `getPopularShots(params)`: no guard. -/
def getPopularShots (st : DState) (params : Pager) :
    Except DribbbleError (Request × DState) :=
  .ok (clientGet st "/popular_shots" (pagerParams params), st)

/-- `getShot(id)`: no guard. -/
def getShot (st : DState) (id : String) :
    Except DribbbleError (Request × DState) :=
  .ok (clientGet st ("/shots/" ++ id) [], st)

/-- `createShot(data)` (protected). -/
def createShot (st : DState) (data : JObj) :
    Except DribbbleError (Request × DState) := do
  enforceAuthorized st
  pure (clientPost st "/shots" data, st)

/-- `updateShot(id, data)` (protected). -/
def updateShot (st : DState) (id : String) (data : JObj) :
    Except DribbbleError (Request × DState) := do
  enforceAuthorized st
  pure (clientPost st ("/shots/" ++ id) data, st)

/-- `deleteShot(id)` (protected). -/
def deleteShot (st : DState) (id : String) :
    Except DribbbleError (Request × DState) := do
  enforceAuthorized st
  pure (clientDelete st ("/shots/" ++ id), st)

/-- `getProfile()` (protected). -/
def getProfile (st : DState) :
    Except DribbbleError (Request × DState) := do
  enforceAuthorized st
  pure (clientGet st "/user" [], st)

/-! ### Properties of the case maps and the scanner -/

theorem char_toNat_ofNat (n : Nat) (h : n < 55296) : (Char.ofNat n).toNat = n := by
  unfold Char.ofNat
  rw [dif_pos (Or.inl h)]
  rfl

theorem toNat_toLowC_of_up (c : Char) (h : isUpC c = true) :
    (toLowC c).toNat = c.toNat + 32 := by
  have hb : 65 ≤ c.toNat ∧ c.toNat ≤ 90 := by
    simpa [isUpC] using h
  rw [toLowC, if_pos h]
  exact char_toNat_ofNat _ (by omega)

theorem isLowC_toLowC_of_up (c : Char) (h : isUpC c = true) :
    isLowC (toLowC c) = true := by
  have hb : 65 ≤ c.toNat ∧ c.toNat ≤ 90 := by
    simpa [isUpC] using h
  have ht := toNat_toLowC_of_up c h
  simp [isLowC, ht]
  omega

theorem isUpC_toLowC (c : Char) : isUpC (toLowC c) = false := by
  by_cases h : isUpC c = true
  · have hb : 65 ≤ c.toNat ∧ c.toNat ≤ 90 := by
      simpa [isUpC] using h
    have ht := toNat_toLowC_of_up c h
    simp [isUpC, ht]
    omega
  · rw [toLowC, if_neg h]
    simpa using h

theorem toLowC_of_not_up (c : Char) (h : isUpC c = false) : toLowC c = c := by
  rw [toLowC, if_neg (by simp [h])]

theorem toLowC_toLowC (c : Char) : toLowC (toLowC c) = toLowC c :=
  toLowC_of_not_up _ (isUpC_toLowC c)

theorem isDigC_not_up (c : Char) (h : isDigC c = true) : isUpC c = false := by
  have hb : 48 ≤ c.toNat ∧ c.toNat ≤ 57 := by
    simpa [isDigC] using h
  simp [isUpC]
  omega

theorem isLowC_not_up (c : Char) (h : isLowC c = true) : isUpC c = false := by
  have hb : 97 ≤ c.toNat ∧ c.toNat ≤ 122 := by
    simpa [isLowC] using h
  simp [isUpC]
  omega

theorem toLowC_of_dig (c : Char) (h : isDigC c = true) : toLowC c = c :=
  toLowC_of_not_up c (isDigC_not_up c h)

theorem toLowC_of_low (c : Char) (h : isLowC c = true) : toLowC c = c :=
  toLowC_of_not_up c (isLowC_not_up c h)

theorem isDigC_toLowC (c : Char) : isDigC (toLowC c) = isDigC c := by
  by_cases h : isUpC c = true
  · have hb : 65 ≤ c.toNat ∧ c.toNat ≤ 90 := by
      simpa [isUpC] using h
    have ht := toNat_toLowC_of_up c h
    have h1 : isDigC (toLowC c) = false := by
      unfold isDigC
      rw [ht]
      simp only [Bool.and_eq_false_iff, decide_eq_false_iff_not]
      omega
    have h2 : isDigC c = false := by
      unfold isDigC
      simp only [Bool.and_eq_false_iff, decide_eq_false_iff_not]
      omega
    rw [h1, h2]
  · rw [toLowC_of_not_up c (by simpa using h)]

example : wordsOf "clientId".data = ["client".data, "Id".data] := by decide
example : wordsOf "perPage".data = ["per".data, "Page".data] := by decide
example : wordsOf "ABCDef".data = ["ABC".data, "Def".data] := by decide
example : wordsOf "a_b".data = ["a".data, "b".data] := by decide
example : wordsOf "shot99ID".data = ["shot".data, "99".data, "ID".data] := by decide

theorem accInv_good (m : Mode) (acc : List Char) (hm : m ≠ .idle)
    (h : accInv m acc) : goodW acc := by
  cases m with
  | idle => exact absurd rfl hm
  | dig => exact ⟨h.1, Or.inl h.2⟩
  | low => exact ⟨h.1, h.2.elim (fun hl => Or.inr (Or.inl hl))
      (fun hu => Or.inr (Or.inr (Or.inr hu)))⟩
  | up => exact ⟨h.1, Or.inr (Or.inr (Or.inl h.2))⟩

theorem flushW_good (acc : List Char) (h : goodW acc) :
    ∀ w ∈ flushW acc, goodW w := by
  intro w hw
  cases acc with
  | nil => simp [flushW] at hw
  | cons a l =>
    simp [flushW] at hw
    exact hw ▸ h

theorem getLastD_all (p : Char → Bool) :
    ∀ (l : List Char) (d : Char), l ≠ [] → (∀ c ∈ l, p c = true) →
      p (l.getLastD d) = true := by
  intro l
  induction l with
  | nil => intro d h _; exact absurd rfl h
  | cons a t ih =>
    intro d _ hall
    cases t with
    | nil => simpa using hall a (by simp)
    | cons b u =>
      have : (a :: b :: u).getLastD d = (b :: u).getLastD a := rfl
      rw [this]
      exact ih a (by simp) (fun c hc => hall c (by simp [hc]))

theorem dropLast_all (p : Char → Bool) (l : List Char)
    (hall : ∀ c ∈ l, p c = true) : ∀ c ∈ l.dropLast, p c = true := by
  intro c hc
  exact hall c (List.dropLast_subset l hc)

/-- Every word emitted by the scanner is well formed. -/
theorem wordsGo_good (cs : List Char) : ∀ (m : Mode) (acc : List Char),
    accInv m acc → ∀ w ∈ wordsGo m acc cs, goodW w := by
  induction cs with
  | nil =>
    intro m acc hinv w hw
    cases m with
    | idle =>
      rw [hinv] at hw
      simp [wordsGo, flushW] at hw
    | dig => exact flushW_good acc (accInv_good _ _ (by simp) hinv) w hw
    | low => exact flushW_good acc (accInv_good _ _ (by simp) hinv) w hw
    | up => exact flushW_good acc (accInv_good _ _ (by simp) hinv) w hw
  | cons c cs ih =>
    intro m acc hinv w hw
    cases m with
    | idle =>
      rw [hinv] at hw
      by_cases hd : isDigC c = true
      · rw [show wordsGo .idle [] (c :: cs) = wordsGo .dig [c] cs by
          simp [wordsGo, hd]] at hw
        exact ih .dig [c] ⟨by simp, by simpa using hd⟩ w hw
      · by_cases hl : isLowC c = true
        · rw [show wordsGo .idle [] (c :: cs) = wordsGo .low [c] cs by
            simp [wordsGo, hd, hl]] at hw
          exact ih .low [c] ⟨by simp, Or.inl (by simpa using hl)⟩ w hw
        · by_cases hu : isUpC c = true
          · rw [show wordsGo .idle [] (c :: cs) = wordsGo .up [c] cs by
              simp [wordsGo, hd, hl, hu]] at hw
            exact ih .up [c] ⟨by simp, by simpa using hu⟩ w hw
          · rw [show wordsGo .idle [] (c :: cs) = wordsGo .idle [] cs by
              simp [wordsGo, hd, hl, hu]] at hw
            exact ih .idle [] rfl w hw
    | dig =>
      have hacc := accInv_good .dig acc (by simp) hinv
      by_cases hd : isDigC c = true
      · rw [show wordsGo .dig acc (c :: cs) = wordsGo .dig (acc ++ [c]) cs by
          simp [wordsGo, hd]] at hw
        refine ih .dig (acc ++ [c]) ⟨by simp, ?_⟩ w hw
        intro x hx
        rcases List.mem_append.mp hx with h | h
        · exact hinv.2 x h
        · simp at h
          exact h ▸ hd
      · by_cases hl : isLowC c = true
        · rw [show wordsGo .dig acc (c :: cs) = acc :: wordsGo .low [c] cs by
            simp [wordsGo, hd, hl]] at hw
          rcases List.mem_cons.mp hw with h | h
          · exact h ▸ hacc
          · exact ih .low [c] ⟨by simp, Or.inl (by simpa using hl)⟩ w h
        · by_cases hu : isUpC c = true
          · rw [show wordsGo .dig acc (c :: cs) = acc :: wordsGo .up [c] cs by
              simp [wordsGo, hd, hl, hu]] at hw
            rcases List.mem_cons.mp hw with h | h
            · exact h ▸ hacc
            · exact ih .up [c] ⟨by simp, by simpa using hu⟩ w h
          · rw [show wordsGo .dig acc (c :: cs) = acc :: wordsGo .idle [] cs by
              simp [wordsGo, hd, hl, hu]] at hw
            rcases List.mem_cons.mp hw with h | h
            · exact h ▸ hacc
            · exact ih .idle [] rfl w h
    | low =>
      have hacc := accInv_good .low acc (by simp) hinv
      by_cases hl : isLowC c = true
      · rw [show wordsGo .low acc (c :: cs) = wordsGo .low (acc ++ [c]) cs by
          simp [wordsGo, hl]] at hw
        refine ih .low (acc ++ [c]) ⟨by simp, ?_⟩ w hw
        rcases hinv.2 with hc | ⟨u, t, het, hut, hts⟩
        · refine Or.inl ?_
          intro x hx
          rcases List.mem_append.mp hx with h | h
          · exact hc x h
          · simp at h
            exact h ▸ hl
        · refine Or.inr ⟨u, t ++ [c], by simp [het], hut, ?_⟩
          intro x hx
          rcases List.mem_append.mp hx with h | h
          · exact hts x h
          · simp at h
            exact h ▸ hl
      · by_cases hd : isDigC c = true
        · rw [show wordsGo .low acc (c :: cs) = acc :: wordsGo .dig [c] cs by
            simp [wordsGo, hd, hl]] at hw
          rcases List.mem_cons.mp hw with h | h
          · exact h ▸ hacc
          · exact ih .dig [c] ⟨by simp, by simpa using hd⟩ w h
        · by_cases hu : isUpC c = true
          · rw [show wordsGo .low acc (c :: cs) = acc :: wordsGo .up [c] cs by
              simp [wordsGo, hd, hl, hu]] at hw
            rcases List.mem_cons.mp hw with h | h
            · exact h ▸ hacc
            · exact ih .up [c] ⟨by simp, by simpa using hu⟩ w h
          · rw [show wordsGo .low acc (c :: cs) = acc :: wordsGo .idle [] cs by
              simp [wordsGo, hd, hl, hu]] at hw
            rcases List.mem_cons.mp hw with h | h
            · exact h ▸ hacc
            · exact ih .idle [] rfl w h
    | up =>
      have hacc := accInv_good .up acc (by simp) hinv
      by_cases hu : isUpC c = true
      · rw [show wordsGo .up acc (c :: cs) = wordsGo .up (acc ++ [c]) cs by
          simp [wordsGo, hu]] at hw
        refine ih .up (acc ++ [c]) ⟨by simp, ?_⟩ w hw
        intro x hx
        rcases List.mem_append.mp hx with h | h
        · exact hinv.2 x h
        · simp at h
          exact h ▸ hu
      · by_cases hl : isLowC c = true
        · by_cases hlen : acc.length ≤ 1
          · rw [show wordsGo .up acc (c :: cs) = wordsGo .low (acc ++ [c]) cs by
              simp [wordsGo, hu, hl, hlen]] at hw
            obtain ⟨u, hun⟩ : ∃ u, acc = [u] := by
              cases acc with
              | nil => exact absurd rfl hinv.1
              | cons a t =>
                cases t with
                | nil => exact ⟨a, rfl⟩
                | cons b r => simp at hlen
            subst hun
            refine ih .low [u, c] ⟨by simp, Or.inr ⟨u, [c], rfl,
              hinv.2 u (by simp), by simpa using hl⟩⟩ w hw
          · rw [show wordsGo .up acc (c :: cs)
                = acc.dropLast :: wordsGo .low [acc.getLastD c, c] cs by
              simp [wordsGo, hu, hl, hlen]] at hw
            rcases List.mem_cons.mp hw with h | h
            · subst h
              refine ⟨?_, Or.inr (Or.inr (Or.inl (dropLast_all _ _ hinv.2)))⟩
              have : acc.dropLast.length = acc.length - 1 := List.length_dropLast acc
              intro hcon
              rw [hcon] at this
              simp at this
              omega
            · refine ih .low [acc.getLastD c, c] ⟨by simp, Or.inr
                ⟨acc.getLastD c, [c], rfl,
                  getLastD_all isUpC acc c hinv.1 hinv.2, by simpa using hl⟩⟩ w h
        · by_cases hd : isDigC c = true
          · rw [show wordsGo .up acc (c :: cs) = acc :: wordsGo .dig [c] cs by
              simp [wordsGo, hu, hl, hd]] at hw
            rcases List.mem_cons.mp hw with h | h
            · exact h ▸ hacc
            · exact ih .dig [c] ⟨by simp, by simpa using hd⟩ w h
          · rw [show wordsGo .up acc (c :: cs) = acc :: wordsGo .idle [] cs by
              simp [wordsGo, hu, hl, hd]] at hw
            rcases List.mem_cons.mp hw with h | h
            · exact h ▸ hacc
            · exact ih .idle [] rfl w h

/-- Every word of `wordsOf l` is well formed. -/
theorem wordsOf_good (l : List Char) : ∀ w ∈ wordsOf l, goodW w :=
  wordsGo_good l .idle [] rfl

theorem isLowC_not_dig (c : Char) (h : isLowC c = true) : isDigC c = false := by
  have hb : 97 ≤ c.toNat ∧ c.toNat ≤ 122 := by
    simpa [isLowC] using h
  simp [isDigC]
  omega

theorem underscore_classes :
    isDigC '_' = false ∧ isLowC '_' = false ∧ isUpC '_' = false := by decide

theorem wordsGo_low_append : ∀ (w rest acc : List Char),
    (∀ c ∈ w, isLowC c = true) →
    wordsGo .low acc (w ++ rest) = wordsGo .low (acc ++ w) rest := by
  intro w
  induction w with
  | nil => intro rest acc _; simp
  | cons c w ih =>
    intro rest acc hws
    have hc : isLowC c = true := hws c (by simp)
    rw [show (c :: w) ++ rest = c :: (w ++ rest) from rfl,
      show wordsGo .low acc (c :: (w ++ rest)) = wordsGo .low (acc ++ [c]) (w ++ rest) by
        simp [wordsGo, hc],
      ih rest (acc ++ [c]) (fun x hx => hws x (by simp [hx]))]
    simp

theorem wordsGo_dig_append : ∀ (w rest acc : List Char),
    (∀ c ∈ w, isDigC c = true) →
    wordsGo .dig acc (w ++ rest) = wordsGo .dig (acc ++ w) rest := by
  intro w
  induction w with
  | nil => intro rest acc _; simp
  | cons c w ih =>
    intro rest acc hws
    have hc : isDigC c = true := hws c (by simp)
    rw [show (c :: w) ++ rest = c :: (w ++ rest) from rfl,
      show wordsGo .dig acc (c :: (w ++ rest)) = wordsGo .dig (acc ++ [c]) (w ++ rest) by
        simp [wordsGo, hc],
      ih rest (acc ++ [c]) (fun x hx => hws x (by simp [hx]))]
    simp

theorem wordsGo_start_low (w rest : List Char) (hne : w ≠ [])
    (hl : ∀ c ∈ w, isLowC c = true) :
    wordsGo .idle [] (w ++ rest) = wordsGo .low w rest := by
  cases w with
  | nil => exact absurd rfl hne
  | cons c wt =>
    have hc : isLowC c = true := hl c (by simp)
    rw [show (c :: wt) ++ rest = c :: (wt ++ rest) from rfl,
      show wordsGo .idle [] (c :: (wt ++ rest)) = wordsGo .low [c] (wt ++ rest) by
        simp [wordsGo, hc, isLowC_not_dig c hc],
      wordsGo_low_append wt rest [c] (fun x hx => hl x (by simp [hx]))]
    rfl

theorem wordsGo_start_dig (w rest : List Char) (hne : w ≠ [])
    (hd : ∀ c ∈ w, isDigC c = true) :
    wordsGo .idle [] (w ++ rest) = wordsGo .dig w rest := by
  cases w with
  | nil => exact absurd rfl hne
  | cons c wt =>
    have hc : isDigC c = true := hd c (by simp)
    rw [show (c :: wt) ++ rest = c :: (wt ++ rest) from rfl,
      show wordsGo .idle [] (c :: (wt ++ rest)) = wordsGo .dig [c] (wt ++ rest) by
        simp [wordsGo, hc],
      wordsGo_dig_append wt rest [c] (fun x hx => hd x (by simp [hx]))]
    rfl

theorem wordsGo_low_end (acc : List Char) (h : acc ≠ []) :
    wordsGo .low acc [] = [acc] := by
  cases acc with
  | nil => exact absurd rfl h
  | cons a t => simp [wordsGo, flushW]

theorem wordsGo_dig_end (acc : List Char) (h : acc ≠ []) :
    wordsGo .dig acc [] = [acc] := by
  cases acc with
  | nil => exact absurd rfl h
  | cons a t => simp [wordsGo, flushW]

theorem wordsGo_low_underscore (acc cs : List Char) :
    wordsGo .low acc ('_' :: cs) = acc :: wordsGo .idle [] cs := by
  simp [wordsGo, underscore_classes.1, underscore_classes.2.1, underscore_classes.2.2]

theorem wordsGo_dig_underscore (acc cs : List Char) :
    wordsGo .dig acc ('_' :: cs) = acc :: wordsGo .idle [] cs := by
  simp [wordsGo, underscore_classes.1, underscore_classes.2.1, underscore_classes.2.2]

/-- Scanning a `'_'`-join of nonempty homogeneous lowercase/digit words
recovers exactly those words. -/
theorem wordsOf_joinWords : ∀ (ws : List (List Char)),
    (∀ w ∈ ws, w ≠ [] ∧ ((∀ c ∈ w, isLowC c = true) ∨ (∀ c ∈ w, isDigC c = true))) →
    wordsOf (joinWords '_' ws) = ws := by
  intro ws
  induction ws with
  | nil => intro _; rfl
  | cons w ws ih =>
    intro h
    obtain ⟨hne, hcl⟩ := h w (by simp)
    cases ws with
    | nil =>
      show wordsGo .idle [] (joinWords '_' [w]) = [w]
      rw [show joinWords '_' [w] = w from rfl, show w = w ++ ([] : List Char) by simp]
      rcases hcl with hlow | hdig
      · rw [wordsGo_start_low w [] hne hlow]
        simpa using wordsGo_low_end w hne
      · rw [wordsGo_start_dig w [] hne hdig]
        simpa using wordsGo_dig_end w hne
    | cons w2 ws2 =>
      show wordsGo .idle [] (joinWords '_' (w :: w2 :: ws2)) = w :: w2 :: ws2
      rw [show joinWords '_' (w :: w2 :: ws2) = w ++ '_' :: joinWords '_' (w2 :: ws2)
        from rfl]
      rcases hcl with hlow | hdig
      · rw [wordsGo_start_low w ('_' :: joinWords '_' (w2 :: ws2)) hne hlow,
          wordsGo_low_underscore]
        exact congrArg (w :: ·) (ih (fun x hx => h x (by simp [hx])))
      · rw [wordsGo_start_dig w ('_' :: joinWords '_' (w2 :: ws2)) hne hdig,
          wordsGo_dig_underscore]
        exact congrArg (w :: ·) (ih (fun x hx => h x (by simp [hx])))

example : snakeCase "clientId" = "client_id" := by decide
example : snakeCase "clientSecret" = "client_secret" := by decide
example : snakeCase "redirectUri" = "redirect_uri" := by decide
example : snakeCase "perPage" = "per_page" := by decide
example : snakeCase "scope" = "scope" := by decide
example : snakeCase "aB" = "a_b" := by decide
example : snakeCase "a_b" = "a_b" := by decide
example : camelCase "client_id" = "clientId" := by decide
example : camelCase "per_page" = "perPage" := by decide
example : camelCase "aB" = "aB" := by decide

/-! ### camelCase absorbs snakeCase -/

theorem lowerW_ne_nil (w : List Char) (h : w ≠ []) : lowerW w ≠ [] := by
  cases w with
  | nil => exact absurd rfl h
  | cons a t => simp [lowerW]

/-- Lowercasing a well-formed word yields a nonempty all-lowercase or
all-digit word. -/
theorem lowerW_class (w : List Char) (hw : goodW w) :
    lowerW w ≠ [] ∧ ((∀ c ∈ lowerW w, isLowC c = true) ∨
      (∀ c ∈ lowerW w, isDigC c = true)) := by
  refine ⟨lowerW_ne_nil w hw.1, ?_⟩
  rcases hw.2 with hdig | hlow | hup | ⟨u, t, hut, hu, ht⟩
  · refine Or.inr ?_
    intro c hc
    rcases List.mem_map.mp hc with ⟨x, hx, hxc⟩
    rw [← hxc, isDigC_toLowC]
    exact hdig x hx
  · refine Or.inl ?_
    intro c hc
    rcases List.mem_map.mp hc with ⟨x, hx, hxc⟩
    rw [← hxc, toLowC_of_low x (hlow x hx)]
    exact hlow x hx
  · refine Or.inl ?_
    intro c hc
    rcases List.mem_map.mp hc with ⟨x, hx, hxc⟩
    rw [← hxc]
    exact isLowC_toLowC_of_up x (hup x hx)
  · refine Or.inl ?_
    intro c hc
    rcases List.mem_map.mp hc with ⟨x, hx, hxc⟩
    rw [hut] at hx
    rcases List.mem_cons.mp hx with h | h
    · rw [← hxc, h]
      exact isLowC_toLowC_of_up u hu
    · rw [← hxc, toLowC_of_low x (ht x h)]
      exact ht x h

/-- Re-scanning a snake_case join of well-formed words gives back the
lowercased words. -/
theorem wordsOf_snakeWords (ws : List (List Char)) (h : ∀ w ∈ ws, goodW w) :
    wordsOf (snakeWords ws) = ws.map lowerW := by
  refine wordsOf_joinWords (ws.map lowerW) ?_
  intro w hw
  rcases List.mem_map.mp hw with ⟨x, hx, hxw⟩
  exact hxw ▸ lowerW_class x (h x hx)

theorem wordsOf_snakeCaseL (l : List Char) :
    wordsOf (snakeCaseL l) = (wordsOf l).map lowerW :=
  wordsOf_snakeWords (wordsOf l) (wordsOf_good l)

theorem lowerW_lowerW (w : List Char) : lowerW (lowerW w) = lowerW w := by
  unfold lowerW
  rw [List.map_map]
  exact List.map_congr_left (fun c _ => toLowC_toLowC c)

theorem capW_lowerW (w : List Char) : capW (lowerW w) = capW w := by
  unfold capW
  rw [lowerW_lowerW]

theorem camelWords_map_lowerW (ws : List (List Char)) :
    camelWords (ws.map lowerW) = camelWords ws := by
  cases ws with
  | nil => rfl
  | cons w ws =>
    show lowerW (lowerW w) ++ ((ws.map lowerW).map capW).flatten
      = lowerW w ++ (ws.map capW).flatten
    rw [lowerW_lowerW, List.map_map]
    have hmap : ws.map (capW ∘ lowerW) = ws.map capW :=
      List.map_congr_left (fun x _ => capW_lowerW x)
    rw [hmap]

theorem camelCaseL_snakeCaseL (l : List Char) :
    camelCaseL (snakeCaseL l) = camelCaseL l := by
  unfold camelCaseL
  rw [wordsOf_snakeCaseL, camelWords_map_lowerW]

/-- camelCase undoes snakeCase up to camelCase-normalization: applying the
inbound transform key map after the outbound one is the same as applying
the inbound one directly. -/
theorem camelCase_snakeCase (s : String) :
    camelCase (snakeCase s) = camelCase s :=
  congrArg String.mk (camelCaseL_snakeCaseL s.data)

/-- Keys with the same snake_case form have the same camelCase form. -/
theorem camelCase_eq_of_snakeCase_eq (a b : String)
    (h : snakeCase a = snakeCase b) : camelCase a = camelCase b := by
  have hd : snakeCaseL a.data = snakeCaseL b.data := congrArg String.data h
  have hw : (wordsOf a.data).map lowerW = (wordsOf b.data).map lowerW := by
    rw [← wordsOf_snakeCaseL, ← wordsOf_snakeCaseL, hd]
  refine congrArg String.mk ?_
  show camelWords (wordsOf a.data) = camelWords (wordsOf b.data)
  calc camelWords (wordsOf a.data)
      = camelWords ((wordsOf a.data).map lowerW) :=
        (camelWords_map_lowerW (wordsOf a.data)).symm
    _ = camelWords ((wordsOf b.data).map lowerW) := by rw [hw]
    _ = camelWords (wordsOf b.data) := camelWords_map_lowerW (wordsOf b.data)

example : snakePipe [("clientId", .str "x"), ("state", .undefined)]
    = [("client_id", .str "x")] := by decide
example : camelPipe [("access_token", .str "t"), ("token_type", .str "bearer")]
    = [("accessToken", .str "t"), ("tokenType", .str "bearer")] := by decide

theorem objInsert_of_not_mem {α : Type} (k : String) (v : α) :
    ∀ (l : List (String × α)), k ∉ l.map Prod.fst →
      objInsert k v l = l ++ [(k, v)] := by
  intro l
  induction l with
  | nil => intro _; rfl
  | cons p t ih =>
    intro h
    obtain ⟨k2, v2⟩ := p
    have hk : k2 ≠ k := by
      intro he
      exact h (by simp [he])
    rw [show objInsert k v ((k2, v2) :: t) = (k2, v2) :: objInsert k v t by
      simp [objInsert, hk]]
    rw [ih (fun hm => h (by simp [hm]))]
    rfl

theorem foldl_objInsert (f : String → String) :
    ∀ (data : JObj) (acc : JObj),
      data.Pairwise (fun p q => f p.1 ≠ f q.1) →
      (∀ p ∈ data, f p.1 ∉ acc.map Prod.fst) →
      data.foldl (fun ret p => objInsert (f p.1) p.2 ret) acc
        = acc ++ data.map (fun p => (f p.1, p.2)) := by
  intro data
  induction data with
  | nil => intro acc _ _; simp
  | cons p data ih =>
    intro acc hp hacc
    rw [show (p :: data).foldl (fun ret q => objInsert (f q.1) q.2 ret) acc
        = data.foldl (fun ret q => objInsert (f q.1) q.2 ret)
            (objInsert (f p.1) p.2 acc) from rfl,
      objInsert_of_not_mem (f p.1) p.2 acc (hacc p (by simp))]
    rw [ih (acc ++ [(f p.1, p.2)]) (List.Pairwise.of_cons hp) ?_]
    · simp
    · intro q hq
      rw [List.map_append, List.mem_append]
      rintro (h | h)
      · exact hacc q (by simp [hq]) h
      · simp at h
        exact (List.rel_of_pairwise_cons hp hq) h.symm

/-- When the key map sends the entries to pairwise distinct keys, the
key-rewriting loop is plain `map`. -/
theorem pipeWith_eq_map (f : String → String) (data : JObj)
    (hp : data.Pairwise (fun p q => f p.1 ≠ f q.1)) :
    pipeWith f data = data.map (fun p => (f p.1, p.2)) := by
  rw [pipeWith, foldl_objInsert f data [] hp (by simp)]
  rfl

/-! ### Transforms on collision-free objects -/

theorem pairwise_snake_of_pairwise_camel (M : JObj)
    (h : M.Pairwise (fun p q => camelCase p.1 ≠ camelCase q.1)) :
    M.Pairwise (fun p q => snakeCase p.1 ≠ snakeCase q.1) :=
  h.imp (fun hne hs => hne (camelCase_eq_of_snakeCase_eq _ _ hs))

theorem snakePipe_eq_map (M : JObj)
    (hN : (pickBy M).Pairwise (fun p q => snakeCase p.1 ≠ snakeCase q.1)) :
    snakePipe M = (pickBy M).map (fun p => (snakeCase p.1, p.2)) :=
  pipeWith_eq_map snakeCase (pickBy M) hN

theorem camelPipe_snakePipe_eq (M : JObj)
    (hN : M.Pairwise (fun p q => camelCase p.1 ≠ camelCase q.1)) :
    camelPipe (snakePipe M) = (pickBy M).map (fun p => (camelCase p.1, p.2)) := by
  have hfc : (pickBy M).Pairwise (fun p q => camelCase p.1 ≠ camelCase q.1) :=
    List.Pairwise.sublist (List.filter_sublist M) hN
  have hfs : (pickBy M).Pairwise (fun p q => snakeCase p.1 ≠ snakeCase q.1) :=
    pairwise_snake_of_pairwise_camel (pickBy M) hfc
  rw [camelPipe, snakePipe_eq_map M hfs, pipeWith_eq_map, List.map_map]
  · refine List.map_congr_left ?_
    intro p _
    show (camelCase (snakeCase p.1), p.2) = (camelCase p.1, p.2)
    rw [camelCase_snakeCase]
  · rw [List.pairwise_map]
    refine hfc.imp ?_
    intro p q h
    show camelCase (snakeCase p.1) ≠ camelCase (snakeCase q.1)
    rw [camelCase_snakeCase, camelCase_snakeCase]
    exact h

theorem pickBy_eq_self (M : JObj) (hT : ∀ p ∈ M, truthy p.2 = true) :
    pickBy M = M :=
  List.filter_eq_self.mpr hT

theorem pairwise_camel_of_nodup (M : JObj)
    (hN : (M.map (fun p => camelCase p.1)).Nodup) :
    M.Pairwise (fun p q => camelCase p.1 ≠ camelCase q.1) :=
  List.pairwise_map.mp hN

example : escapeQS "https://app/cb" = "https%3A%2F%2Fapp%2Fcb" := by decide
example : stringifyQS [("client_id", .str "x"), ("scope", .str "upload")]
    = "client_id=x&scope=upload" := by decide

/-! ### Header and guard lemmas -/

theorem lookup_objInsert_self {α : Type} (k : String) (v : α) :
    ∀ (l : List (String × α)), List.lookup k (objInsert k v l) = some v := by
  intro l
  induction l with
  | nil => simp [objInsert, List.lookup]
  | cons p t ih =>
    obtain ⟨k2, v2⟩ := p
    by_cases hk : k2 = k
    · simp [objInsert, hk, List.lookup]
    · rw [show objInsert k v ((k2, v2) :: t) = (k2, v2) :: objInsert k v t by
        simp [objInsert, hk]]
      have hbk : (k == k2) = false := by
        simp [Ne.symm hk]
      rw [show List.lookup k ((k2, v2) :: objInsert k v t)
          = List.lookup k (objInsert k v t) by
        simp [List.lookup, hbk]]
      exact ih

theorem lookup_append_left {α : Type} (k : String) (v : α)
    (l m : List (String × α)) (h : List.lookup k l = some v) :
    List.lookup k (l ++ m) = some v := by
  induction l with
  | nil => simp [List.lookup] at h
  | cons p t ih =>
    obtain ⟨k2, v2⟩ := p
    rw [show ((k2, v2) :: t) ++ m = (k2, v2) :: (t ++ m) from rfl]
    cases hbk : (k == k2) with
    | true => simpa [List.lookup, hbk] using h
    | false =>
      simp only [List.lookup, hbk] at h ⊢
      exact ih h

theorem objInsert_objInsert {α : Type} (k : String) (v v2 : α) :
    ∀ (l : List (String × α)),
      objInsert k v (objInsert k v2 l) = objInsert k v l := by
  intro l
  induction l with
  | nil => simp [objInsert]
  | cons p t ih =>
    obtain ⟨k2, w⟩ := p
    by_cases hk : k2 = k
    · simp [objInsert, hk]
    · simp only [objInsert, if_neg hk]
      rw [ih]

/-- Shared fact: with an empty stored token, every guarded method returns
the 403 error and produces no request. -/
theorem protected_error_all (st : DState) (h : st.accessToken = "")
    (id attachmentId name description : String) (file : JVal) (data : JObj)
    (p : Pager) :
    createAttachment st id file = .error unauthorizedError ∧
    deleteAttachment st id attachmentId = .error unauthorizedError ∧
    getLikes st p = .error unauthorizedError ∧
    hasLiked st id = .error unauthorizedError ∧
    likeShot st id = .error unauthorizedError ∧
    getUserProject st p = .error unauthorizedError ∧
    createProject st name description = .error unauthorizedError ∧
    updateProject st id data = .error unauthorizedError ∧
    deleteProject st id = .error unauthorizedError ∧
    getUserShots st p = .error unauthorizedError ∧
    createShot st data = .error unauthorizedError ∧
    updateShot st id data = .error unauthorizedError ∧
    deleteShot st id = .error unauthorizedError ∧
    getProfile st = .error unauthorizedError := by
  have he : enforceAuthorized st = .error unauthorizedError := by
    rw [enforceAuthorized, if_pos h]
  refine ⟨?_, ?_, ?_, ?_, ?_, ?_, ?_, ?_, ?_, ?_, ?_, ?_, ?_, ?_⟩ <;>
    · simp only [createAttachment, deleteAttachment, getLikes, hasLiked, likeShot,
        getUserProject, createProject, updateProject, deleteProject, getUserShots,
        createShot, updateShot, deleteShot, getProfile, he]
      rfl

/-! ### Claim theorems -/

/-- C1: with an empty stored access token (no non-empty token installed by
`setAccessToken`), every protected endpoint method — `createAttachment`,
`deleteAttachment`, `getLikes`, `hasLiked`, `likeShot`, `getUserProject`,
`createProject`, `updateProject`, `deleteProject`, `getUserShots`,
`createShot`, `updateShot`, `deleteShot`, `getProfile` — fails immediately
with the typed `Unauthorized` error of numeric code 403 on every input,
and produces no HTTP request for the transport. -/
theorem protected_methods_require_token (st : DState) (h : st.accessToken = "")
    (id attachmentId name description : String) (file : JVal) (data : JObj)
    (p : Pager) :
    (createAttachment st id file = .error unauthorizedError ∧
     deleteAttachment st id attachmentId = .error unauthorizedError ∧
     getLikes st p = .error unauthorizedError ∧
     hasLiked st id = .error unauthorizedError ∧
     likeShot st id = .error unauthorizedError ∧
     getUserProject st p = .error unauthorizedError ∧
     createProject st name description = .error unauthorizedError ∧
     updateProject st id data = .error unauthorizedError ∧
     deleteProject st id = .error unauthorizedError ∧
     getUserShots st p = .error unauthorizedError ∧
     createShot st data = .error unauthorizedError ∧
     updateShot st id data = .error unauthorizedError ∧
     deleteShot st id = .error unauthorizedError ∧
     getProfile st = .error unauthorizedError) ∧
    unauthorizedError.code = 403 :=
  ⟨protected_error_all st h id attachmentId name description file data p, rfl⟩

/-- Witness for C1 at a freshly constructed client and concrete inputs. -/
theorem protected_methods_require_token_witness :
    (createAttachment (mkClient ⟨"i", "s", "public"⟩) "7" (.str "f") = .error unauthorizedError ∧
     deleteAttachment (mkClient ⟨"i", "s", "public"⟩) "7" "9" = .error unauthorizedError ∧
     getLikes (mkClient ⟨"i", "s", "public"⟩) ⟨1, 2⟩ = .error unauthorizedError ∧
     hasLiked (mkClient ⟨"i", "s", "public"⟩) "7" = .error unauthorizedError ∧
     likeShot (mkClient ⟨"i", "s", "public"⟩) "7" = .error unauthorizedError ∧
     getUserProject (mkClient ⟨"i", "s", "public"⟩) ⟨1, 2⟩ = .error unauthorizedError ∧
     createProject (mkClient ⟨"i", "s", "public"⟩) "n" "d" = .error unauthorizedError ∧
     updateProject (mkClient ⟨"i", "s", "public"⟩) "7" [] = .error unauthorizedError ∧
     deleteProject (mkClient ⟨"i", "s", "public"⟩) "7" = .error unauthorizedError ∧
     getUserShots (mkClient ⟨"i", "s", "public"⟩) ⟨1, 2⟩ = .error unauthorizedError ∧
     createShot (mkClient ⟨"i", "s", "public"⟩) [] = .error unauthorizedError ∧
     updateShot (mkClient ⟨"i", "s", "public"⟩) "7" [] = .error unauthorizedError ∧
     deleteShot (mkClient ⟨"i", "s", "public"⟩) "7" = .error unauthorizedError ∧
     getProfile (mkClient ⟨"i", "s", "public"⟩) = .error unauthorizedError) ∧
    unauthorizedError.code = 403 :=
  protected_methods_require_token (mkClient ⟨"i", "s", "public"⟩) rfl
    "7" "9" "n" "d" (.str "f") [] ⟨1, 2⟩

/-- C10: `setAccessToken ""` de-authorizes the client: it still installs
the default header `Authorization: Bearer ` followed by the empty token,
yet every protected method fails again with the 403 error and produces no
request, because the guard tests the truthiness of the stored token. -/
theorem empty_token_deauthorizes (st : DState)
    (id attachmentId name description : String) (file : JVal) (data : JObj)
    (p : Pager) :
    (setAccessToken "" st).accessToken = "" ∧
    List.lookup "Authorization" (setAccessToken "" st).defaultHeaders
      = some "Bearer " ∧
    createAttachment (setAccessToken "" st) id file = .error unauthorizedError ∧
    deleteAttachment (setAccessToken "" st) id attachmentId = .error unauthorizedError ∧
    getLikes (setAccessToken "" st) p = .error unauthorizedError ∧
    hasLiked (setAccessToken "" st) id = .error unauthorizedError ∧
    likeShot (setAccessToken "" st) id = .error unauthorizedError ∧
    getUserProject (setAccessToken "" st) p = .error unauthorizedError ∧
    createProject (setAccessToken "" st) name description = .error unauthorizedError ∧
    updateProject (setAccessToken "" st) id data = .error unauthorizedError ∧
    deleteProject (setAccessToken "" st) id = .error unauthorizedError ∧
    getUserShots (setAccessToken "" st) p = .error unauthorizedError ∧
    createShot (setAccessToken "" st) data = .error unauthorizedError ∧
    updateShot (setAccessToken "" st) id data = .error unauthorizedError ∧
    deleteShot (setAccessToken "" st) id = .error unauthorizedError ∧
    getProfile (setAccessToken "" st) = .error unauthorizedError := by
  obtain ⟨h1, h2, h3, h4, h5, h6, h7, h8, h9, h10, h11, h12, h13, h14⟩ :=
    protected_error_all (setAccessToken "" st) rfl
      id attachmentId name description file data p
  refine ⟨rfl, ?_, h1, h2, h3, h4, h5, h6, h7, h8, h9, h10, h11, h12, h13, h14⟩
  show List.lookup "Authorization"
    (objInsert "Authorization" ("Bearer " ++ "") st.defaultHeaders) = some "Bearer "
  rw [lookup_objInsert_self]
  decide

/-- C6: after `setAccessToken t`, the default headers map `Authorization`
to `Bearer t`, so every request subsequently built by the shared transport
helpers carries that header; the operation is idempotent, and a later call
overwrites the stored token and header (most recent token wins). -/
theorem setAccessToken_installs_bearer_header (st : DState)
    (t t2 url : String) (q data : JObj) :
    List.lookup "Authorization" (setAccessToken t st).defaultHeaders
      = some ("Bearer " ++ t) ∧
    List.lookup "Authorization" (clientGet (setAccessToken t st) url q).headers
      = some ("Bearer " ++ t) ∧
    List.lookup "Authorization" (clientPost (setAccessToken t st) url data).headers
      = some ("Bearer " ++ t) ∧
    List.lookup "Authorization" (clientDelete (setAccessToken t st) url).headers
      = some ("Bearer " ++ t) ∧
    setAccessToken t (setAccessToken t st) = setAccessToken t st ∧
    setAccessToken t (setAccessToken t2 st) = setAccessToken t st := by
  have hmain : List.lookup "Authorization" (setAccessToken t st).defaultHeaders
      = some ("Bearer " ++ t) := lookup_objInsert_self _ _ _
  refine ⟨hmain, hmain, ?_, hmain, ?_, ?_⟩
  · exact lookup_append_left _ _ _ _ hmain
  · simp [setAccessToken, objInsert_objInsert]
  · simp [setAccessToken, objInsert_objInsert]

/-- C8: the unguarded methods `getPopularShots`, `getShot` and `unlikeShot`
hand a request to the transport for every client state — also one whose
access token was never set — and never produce the 403 precondition
error. -/
theorem unprotected_methods_skip_guard (st : DState) (id : String) (p : Pager) :
    getPopularShots st p = .ok (clientGet st "/popular_shots" (pagerParams p), st) ∧
    getShot st id = .ok (clientGet st ("/shots/" ++ id) [], st) ∧
    unlikeShot st id = .ok (clientDelete st ("/shots/" ++ id ++ "/like"), st) ∧
    (mkClient ⟨"i", "s", "public"⟩).accessToken = "" ∧
    (getPopularShots (mkClient ⟨"i", "s", "public"⟩) ⟨1, 2⟩).isOk = true ∧
    (getShot (mkClient ⟨"i", "s", "public"⟩) "7").isOk = true ∧
    (unlikeShot (mkClient ⟨"i", "s", "public"⟩) "7").isOk = true :=
  ⟨rfl, rfl, rfl, rfl, rfl, rfl, rfl⟩

/-- C7: `exchangeAuthorizationCode` posts to the token endpoint with body
`{clientId, clientSecret, code, redirectUri}` run through the outbound
transform, and leaves the stored access token (hence the derived
authorization state) unchanged — it never installs the returned token. -/
theorem exchange_code_posts_transformed_body (st : DState) (code : String)
    (ru : Option String) :
    exchangeAuthorizationCode st code ru
      = .ok ({ method := "POST", url := oauthEndpoint ++ "/token",
               headers := st.defaultHeaders ++
                 [("Content-Type", "application/x-www-form-urlencoded")],
               params := [],
               body := some (stringifyQS (snakePipe
                 [("clientId", .str st.clientId),
                  ("clientSecret", .str st.clientSecret),
                  ("code", .str code),
                  ("redirectUri", optVal ru)])) }, st) ∧
    (exchangeAuthorizationCode st code ru).map (fun r => r.2) = .ok st ∧
    (exchangeAuthorizationCode (mkClient ⟨"id", "sec", "public"⟩) "c0" none).map
        (fun r => r.1.body)
      = .ok (some "client_id=id&client_secret=sec&code=c0") :=
  ⟨rfl, rfl, rfl⟩

/-- C9: both transforms are pure total functions of the input mapping and
return the empty mapping on the empty mapping. -/
theorem transforms_on_empty_mapping : snakePipe [] = [] ∧ camelPipe [] = [] :=
  ⟨rfl, rfl⟩

/-- C4 (failing input): a Pager given to `getLikes` is sent as the raw
`params` object — axios applies the `transformRequest` chain (where
`snakePipe` is registered) only to request bodies — so the wire query uses
the key `perPage`, not the snake_case `per_page` the outbound transform
would produce. -/
theorem pager_params_bypass_snake_transform :
    (getLikes (setAccessToken "tok" (mkClient ⟨"i", "s", "public"⟩)) ⟨1, 5⟩).map
        (fun r => r.1.params)
      = .ok [("page", JVal.num 1), ("perPage", JVal.num 5)] ∧
    snakePipe [("page", JVal.num 1), ("perPage", JVal.num 5)]
      = [("page", JVal.num 1), ("per_page", JVal.num 5)] ∧
    ([("page", JVal.num 1), ("perPage", JVal.num 5)] : JObj)
      ≠ snakePipe [("page", JVal.num 1), ("perPage", JVal.num 5)] :=
  ⟨rfl, by decide, by decide⟩

/-- C5 (amended): for a client whose configured clientId and scope are
non-empty, `getAuthorizationUrl()` with no arguments yields the URL with
path `/oauth/authorize` whose query holds exactly `client_id` and `scope`
(no `redirect_uri`, no `state`), and
`getAuthorizationUrl("upload", "https://app/cb", "xyz")` adds
`scope=upload`, the percent-encoded `redirect_uri` and `state=xyz`.
Pure string construction, no request. -/
theorem auth_url_builds_query (cid sec sc : String) (hc : cid ≠ "") (hs : sc ≠ "") :
    authQuery (mkClient ⟨cid, sec, sc⟩) none none none
      = [("client_id", .str cid), ("scope", .str sc)] ∧
    authQuery (mkClient ⟨cid, sec, sc⟩) (some "upload") (some "https://app/cb")
        (some "xyz")
      = [("client_id", .str cid), ("scope", .str "upload"),
         ("redirect_uri", .str "https://app/cb"), ("state", .str "xyz")] ∧
    getAuthorizationUrl (mkClient ⟨"cid0", "sec0", "public"⟩) none none none
      = "https://dribbble.com/oauth/authorize?client_id=cid0&scope=public" ∧
    getAuthorizationUrl (mkClient ⟨"cid0", "sec0", "public"⟩)
        (some "upload") (some "https://app/cb") (some "xyz")
      = "https://dribbble.com/oauth/authorize?client_id=cid0&scope=upload&redirect_uri=https%3A%2F%2Fapp%2Fcb&state=xyz" := by
  refine ⟨?_, ?_, by decide, by decide⟩
  · show snakePipe [("clientId", .str cid), ("scope", .str sc),
      ("redirectUri", .undefined), ("state", .undefined)] = _
    rw [snakePipe, pickBy,
      show List.filter (fun p => truthy p.2)
          [("clientId", JVal.str cid), ("scope", JVal.str sc),
           ("redirectUri", JVal.undefined), ("state", JVal.undefined)]
        = [("clientId", JVal.str cid), ("scope", JVal.str sc)] by
        simp [List.filter_cons, truthy, hc, hs]]
    rfl
  · show snakePipe [("clientId", .str cid), ("scope", .str "upload"),
      ("redirectUri", .str "https://app/cb"), ("state", .str "xyz")] = _
    rw [snakePipe, pickBy,
      show List.filter (fun p => truthy p.2)
          [("clientId", JVal.str cid), ("scope", JVal.str "upload"),
           ("redirectUri", JVal.str "https://app/cb"), ("state", JVal.str "xyz")]
        = [("clientId", JVal.str cid), ("scope", JVal.str "upload"),
           ("redirectUri", JVal.str "https://app/cb"), ("state", JVal.str "xyz")] by
        simp [List.filter_cons, truthy, hc]]
    rfl

/-- Witness for C5 at the concrete configuration `cid0`/`sec0`/`public`. -/
theorem auth_url_builds_query_witness :
    authQuery (mkClient ⟨"cid0", "sec0", "public"⟩) none none none
      = [("client_id", .str "cid0"), ("scope", .str "public")] ∧
    authQuery (mkClient ⟨"cid0", "sec0", "public"⟩) (some "upload")
        (some "https://app/cb") (some "xyz")
      = [("client_id", .str "cid0"), ("scope", .str "upload"),
         ("redirect_uri", .str "https://app/cb"), ("state", .str "xyz")] ∧
    getAuthorizationUrl (mkClient ⟨"cid0", "sec0", "public"⟩) none none none
      = "https://dribbble.com/oauth/authorize?client_id=cid0&scope=public" ∧
    getAuthorizationUrl (mkClient ⟨"cid0", "sec0", "public"⟩)
        (some "upload") (some "https://app/cb") (some "xyz")
      = "https://dribbble.com/oauth/authorize?client_id=cid0&scope=upload&redirect_uri=https%3A%2F%2Fapp%2Fcb&state=xyz" :=
  auth_url_builds_query "cid0" "sec0" "public" (by decide) (by decide)

/-- C5 counterexample: with an empty configured clientId (and scope) the
query contains no `client_id` pair at all — the outbound transform drops
falsy values — so the claim's unconditional `client_id=c` fails. -/
theorem auth_url_empty_client_id_cex :
    (mkClient ⟨"", "sec", ""⟩).clientId = "" ∧
    List.lookup "client_id" (authQuery (mkClient ⟨"", "sec", ""⟩) none none none)
      = none ∧
    getAuthorizationUrl (mkClient ⟨"", "sec", ""⟩) none none none
      = "https://dribbble.com/oauth/authorize" := by
  refine ⟨rfl, by decide, rfl⟩

/-- C2 (amended): for a mapping with only truthy values and no two keys
sharing a camelCase form, `camelPipe (snakePipe M)` is exactly `M` with
every key camelCase-normalized and every value untouched; its key set is
the camelCase image of `M`'s key set. -/
theorem roundtrip_camel_normalizes_keys (M : JObj)
    (hT : ∀ p ∈ M, truthy p.2 = true)
    (hN : (M.map (fun p => camelCase p.1)).Nodup) :
    camelPipe (snakePipe M) = M.map (fun p => (camelCase p.1, p.2)) ∧
    (camelPipe (snakePipe M)).map Prod.fst = (M.map Prod.fst).map camelCase := by
  have h1 := camelPipe_snakePipe_eq M (pairwise_camel_of_nodup M hN)
  rw [pickBy_eq_self M hT] at h1
  refine ⟨h1, ?_⟩
  rw [h1, List.map_map, List.map_map]
  rfl

/-- Witness for C2 on a typical payload. -/
theorem roundtrip_camel_normalizes_keys_witness :
    (∀ p ∈ ([("clientId", JVal.str "x"), ("perPage", JVal.num 3)] : JObj),
      truthy p.2 = true) ∧
    (([("clientId", JVal.str "x"), ("perPage", JVal.num 3)] : JObj).map
      (fun p => camelCase p.1)).Nodup ∧
    camelPipe (snakePipe [("clientId", JVal.str "x"), ("perPage", JVal.num 3)])
      = [("clientId", JVal.str "x"), ("perPage", JVal.num 3)] :=
  ⟨by decide, by decide,
    ((roundtrip_camel_normalizes_keys
        [("clientId", JVal.str "x"), ("perPage", JVal.num 3)]
        (by decide) (by decide)).1).trans (by decide)⟩

/-- C2 counterexample: the distinct truthy keys `aB` and `a_b` collide on
`a_b` under the outbound transform, so the round trip returns the mapping
`{aB ↦ 2}` — key `aB`'s value is altered from 1 to 2, refuting the claim's
unconditional value preservation. -/
theorem roundtrip_value_collision_cex :
    (∀ p ∈ ([("aB", JVal.num 1), ("a_b", JVal.num 2)] : JObj),
      truthy p.2 = true) ∧
    (([("aB", JVal.num 1), ("a_b", JVal.num 2)] : JObj).map Prod.fst).Nodup ∧
    camelCase "aB" = "aB" ∧
    List.lookup "aB" ([("aB", JVal.num 1), ("a_b", JVal.num 2)] : JObj)
      = some (JVal.num 1) ∧
    List.lookup "aB" (camelPipe (snakePipe [("aB", JVal.num 1), ("a_b", JVal.num 2)]))
      = some (JVal.num 2) := by decide

/-- C3 (amended): when no two truthy keys share a snake_case form,
`snakePipe` keeps exactly the truthy entries, snake_cases their keys and
leaves their values unchanged; in particular
`toWireFormat {clientId: "x", state: undefined} = {client_id: "x"}`. -/
theorem snakePipe_filters_and_snake_cases (M : JObj)
    (hN : ((pickBy M).map (fun p => snakeCase p.1)).Nodup) :
    snakePipe M = (pickBy M).map (fun p => (snakeCase p.1, p.2)) ∧
    snakePipe [("clientId", JVal.str "x"), ("state", JVal.undefined)]
      = [("client_id", JVal.str "x")] :=
  ⟨snakePipe_eq_map M (List.pairwise_map.mp hN), by decide⟩

/-- Witness for C3 at the claim's own example input. -/
theorem snakePipe_filters_and_snake_cases_witness :
    ((pickBy [("clientId", JVal.str "x"), ("state", JVal.undefined)]).map
      (fun p => snakeCase p.1)).Nodup ∧
    snakePipe [("clientId", JVal.str "x"), ("state", JVal.undefined)]
      = [("client_id", JVal.str "x")] :=
  ⟨by decide,
    ((snakePipe_filters_and_snake_cases
        [("clientId", JVal.str "x"), ("state", JVal.undefined)]
        (by decide)).1).trans (by decide)⟩

/-- C3 counterexample: the truthy keys `aB` and `a_b` both snake_case to
`a_b`; the later entry overwrites the earlier, so key `aB`'s value is not
carried over unchanged as the claim demands for every mapping. -/
theorem snakePipe_value_collision_cex :
    (([("aB", JVal.num 1), ("a_b", JVal.num 2)] : JObj).map Prod.fst).Nodup ∧
    snakePipe [("aB", JVal.num 1), ("a_b", JVal.num 2)] = [("a_b", JVal.num 2)] ∧
    ¬ (∀ p ∈ ([("aB", JVal.num 1), ("a_b", JVal.num 2)] : JObj), truthy p.2 = true →
        List.lookup (snakeCase p.1)
            (snakePipe [("aB", JVal.num 1), ("a_b", JVal.num 2)])
          = some p.2) := by decide
